import Mathlib

/-
Verification development for the packed-sequence causal-generation engine
(apps/main/generate.py and lingua/tokenizer.py).  Python tensors over one
axis are embedded as Lean lists; machine floats used for probabilities are
embedded as rationals; fallible constructors return Except.
-/

namespace Lingua

/-! ### Cache layout planner (setup_prefilling, generate.py lines 218 to 224) -/

/-- Embeds the in-place Python statement that adds a delta to the final entry
of a tensor: every entry but the last is unchanged. -/
def addToLast : List Int → Int → List Int
  | [], _ => []
  | [x], d => [x + d]
  | x :: y :: xs, d => x :: addToLast (y :: xs) d

/-- Modelled from the spec: the helper lengths_to_start_ids is defined in
lingua/transformer.py, which is absent from the provided sources.  The spec
states start_offset[i] = prefix_sum(padded_lengths)[:i], so position i holds
the sum of the padded lengths of all sequences before i. -/
def lengths_to_start_ids (L : List Int) : List Int :=
  (List.range L.length).map fun i => (L.take i).sum

/-- Embeds the padded-length computation of setup_prefilling:
padded_lengths = lengths + max_gen_len; max_tokens is the configured capacity
when it is truthy (Python or treats None and 0 as falsy) and otherwise the sum
of the padded lengths; then padded_lengths[-1] += max_tokens - sum. -/
def plannedPaddedLengths (lengths : List Int) (G : Int) (C : Option Int) : List Int :=
  let padded := lengths.map (· + G)
  let maxTokens : Int :=
    match C with
    | none => padded.sum
    | some c => if c = 0 then padded.sum else c
  addToLast padded (maxTokens - padded.sum)

/-! ### Padded local ids and the decode-step mask (generate.py lines 270, 310 to 319) -/

/-- Modelled from the spec: lengths_to_local_ids is defined in
lingua/transformer.py, which is absent from the provided sources.  Per the
spec and the worked example in generate.py (padded_doc_id 00000111111,
padded_tok_id 01234012345 for spans of lengths 5 and 6), each cache position
inside the span of sequence d carries document id d and local token id equal
to its distance from the start of the span. -/
def lengths_to_local_ids_from (d : Nat) : List Nat → List Nat × List Nat
  | [] => ([], [])
  | n :: rest =>
    let p := lengths_to_local_ids_from (d + 1) rest
    (List.replicate n d ++ p.1, List.range n ++ p.2)

/-- Modelled from the spec: see lengths_to_local_ids_from; document ids start
at 0 for the first sequence. -/
def lengths_to_local_ids (L : List Nat) : List Nat × List Nat :=
  lengths_to_local_ids_from 0 L

/-- Embeds the mask computation of generate_next_token: broadcasting
current_doc_id against padded_doc_id for equality and current_tok_id against
padded_tok_id for the greater-or-equal test, then taking the conjunction.
Entry (i, j) of the result is the visibility of cache position j for the
query of sequence i. -/
def decode_mask (cur_doc cur_tok pad_doc pad_tok : List Nat) : List (List Bool) :=
  (List.range cur_doc.length).map fun i =>
    (List.range pad_doc.length).map fun j =>
      decide (cur_doc.getD i 0 = pad_doc.getD j 0) &&
        decide (pad_tok.getD j 0 ≤ cur_tok.getD i 0)

/-- Embeds the statement current_tok_id += 1 at the end of
generate_next_token: every per-sequence position advances by one, with no
test of the finished flags. -/
def advanceTokIds (cur_tok : List Nat) : List Nat :=
  cur_tok.map (· + 1)

/-! ### KV cache (generate.py lines 104 to 121 and 191 to 203) -/

/-- The Python attribute kv_cache.offset holds either the scalar 0 (set by
the constructor and by reset) or a tensor of per-slot offsets (set by
clear_cache and setup_generation); addition with tok_idx broadcasts. -/
inductive Offset where
  | scalar (n : Nat)
  | vector (v : List Nat)
deriving DecidableEq

/-- Broadcast addition of an offset with an index tensor, as in the Python
expression self.offset + tok_idx. -/
def Offset.add : Offset → List Nat → List Nat
  | .scalar n, tok => tok.map (fun t => n + t)
  | .vector v, tok => v.zipWith (· + ·) tok

/-- One attention layer cache: the key and value buffers indexed by cache
position (the entries stand for whole head-by-head-dim slices) and the write
offset.  The constructor zero-fills both buffers. -/
structure KVCache where
  k_cache : List Int
  v_cache : List Int
  offset : Offset
deriving DecidableEq

/-- Embeds KVCache.__init__: zero buffers of the given capacity, offset 0. -/
def KVCache.init (capacity : Nat) : KVCache :=
  { k_cache := List.replicate capacity 0
    v_cache := List.replicate capacity 0
    offset := Offset.scalar 0 }

/-- Embeds KVCache.reset: zero both buffers in place and clear the offset. -/
def KVCache.reset (c : KVCache) : KVCache :=
  { k_cache := List.replicate c.k_cache.length 0
    v_cache := List.replicate c.v_cache.length 0
    offset := Offset.scalar 0 }

/-- Embeds clear_cache for one attention module: when the module has no
kv_cache attribute a fresh zero cache of capacity max_tokens is created, and
in every case the offset is set to the given value.  Nothing else is done:
in particular reset is not called and existing buffer contents are kept. -/
def clear_cache (existing : Option KVCache) (max_tokens : Nat) (newOffset : Offset) : KVCache :=
  match existing with
  | none => { KVCache.init max_tokens with offset := newOffset }
  | some c => { c with offset := newOffset }

/-- Embeds torch index_copy_ along the position axis: the writes prescribed
by the index list are performed in order, position idx[j] receiving vals[j]. -/
def indexCopy (cache : List Int) (idx : List Nat) (vals : List Int) : List Int :=
  (idx.zip vals).foldl (fun c p => c.set p.1 p.2) cache

/-- Embeds KVCache.update: both buffers are index-copied at positions
offset + tok_idx and the (mutated) buffers are returned. -/
def KVCache.update (c : KVCache) (k_val v_val : List Int) (tok_idx : List Nat) :
    KVCache × List Int × List Int :=
  let idx := c.offset.add tok_idx
  let k := indexCopy c.k_cache idx k_val
  let v := indexCopy c.v_cache idx v_val
  ({ c with k_cache := k, v_cache := v }, k, v)

/-! ### Generator construction and sampling dispatch (generate.py lines 49 to 63 and 140 to 189) -/

/-- Embeds PackedCausalTransformerGeneratorArgs (the fields the claims
touch; top_k is a float in the Python dataclass). -/
structure GeneratorArgs where
  temperature : ℚ
  top_p : Option ℚ
  top_k : Option ℚ
  max_gen_len : Nat
  max_tokens : Nat
  untilStrs : List (List Char)
  dtype : String
deriving DecidableEq

/-- The configuration state the constructor copies onto the generator. -/
structure GeneratorState where
  temperature : ℚ
  top_p : Option ℚ
  top_k : Option ℚ
  max_gen_len : Nat
  max_tokens : Nat
  untilStrs : List (List Char)
  max_until_size : Nat
deriving DecidableEq

/-- Embeds PackedCausalTransformerGenerator.__init__: the sampling fields are
copied verbatim with no validation; max_until_size is the longest stop string
when the until list is non-empty and 1 otherwise; the only failing lookup is
the dtype dictionary, which knows fp32 and bf16. -/
def generatorInit (cfg : GeneratorArgs) : Except String GeneratorState :=
  if cfg.dtype = "fp32" ∨ cfg.dtype = "bf16" then
    .ok { temperature := cfg.temperature
          top_p := cfg.top_p
          top_k := cfg.top_k
          max_gen_len := cfg.max_gen_len
          max_tokens := cfg.max_tokens
          untilStrs := cfg.untilStrs
          max_until_size :=
            if cfg.untilStrs.isEmpty then 1
            else (cfg.untilStrs.map List.length).foldl Nat.max 0 }
  else .error "KeyError: unknown dtype"

/-- The sampling branch that sample_tokens takes for given settings. -/
inductive SamplingMethod where
  | greedyArgmax
  | topP (p : ℚ)
  | topK (k : ℚ)
  | plainMultinomial
deriving DecidableEq

/-- Embeds the branch structure of sample_tokens: with temperature 0 the
argmax is taken; otherwise top_p is tested first, then top_k, and plain
multinomial sampling is the fallback.  When both filters are set the top_p
branch is taken and top_k is never consulted. -/
def sampleMethod (temperature : ℚ) (top_p top_k : Option ℚ) : SamplingMethod :=
  if 0 < temperature then
    match top_p with
    | some p => .topP p
    | none =>
      match top_k with
      | some k => .topK k
      | none => .plainMultinomial
  else .greedyArgmax

/-! ### Sequence packing (generate.py lines 66 to 76) -/

/-- Embeds pack_prompts: the token lists are concatenated in order and the
per-prompt lengths recorded; torch.cat raises on an empty tensor list, which
is the only failure, so the result is None exactly for an empty batch.  No
emptiness test is applied to the individual prompts. -/
def pack_prompts (prompts : List (List Int)) : Option (List Int × List Nat) :=
  if prompts.isEmpty then none
  else some (prompts.flatten, prompts.map List.length)

/-! ### Batcher (generate.py lines 79 to 101) -/

/-- Embeds the loop of batch_prompts over (prompt, reserved length) pairs:
cur is the current batch being filled and cnt its running total, matching
current_batch and current_count.  A prompt fitting within max_elements joins
the current batch; otherwise the current batch (if non-empty) is emitted and
a new batch starts with that prompt alone. -/
def batchPromptsAux (M : Nat) : List (α × Nat) → List (α × Nat) → Nat → List (List (α × Nat))
  | [], cur, _ => if cur.isEmpty then [] else [cur]
  | x :: rest, cur, cnt =>
    if cnt + x.2 ≤ M then batchPromptsAux M rest (cur ++ [x]) (cnt + x.2)
    else (if cur.isEmpty then [] else [cur]) ++ batchPromptsAux M rest [x] x.2

/-- Embeds batch_prompts with an explicit lengths argument (the form used by
generate): each prompt carries its reserved length. -/
def batch_prompts (M : Nat) (prompts : List (α × Nat)) : List (List (α × Nat)) :=
  batchPromptsAux M prompts [] 0

/-! ### Per-sequence decode-loop state (generate.py lines 366 to 388) -/

/-- The per-sequence slice of the decode-loop state: the accumulated
generated tokens and the finished flag. -/
structure SeqGenState where
  generated : List Nat
  is_done : Bool
deriving DecidableEq

/-- Embeds the Python tail slice generated[-n:]: for n positive the last n
elements (all of them when fewer exist); for n = 0, since Python reads
generated[-0:] as generated[0:], the whole list. -/
def sliceTail (l : List α) (n : Nat) : List α :=
  if n = 0 then l else l.drop (l.length - n)

/-- Embeds the body of the per-token loop in generate for one sequence: a
finished sequence is left untouched; otherwise the sampled token is appended,
the tail of max_until_size tokens is decoded, and the finished flag is set
when a stop string occurs inside the decoded tail (Python in on strings is
substring containment) or the token equals the end-of-sequence id. -/
def stepSeq (decodeFn : List Nat → List Char) (untilStrs : List (List Char))
    (max_until_size : Nat) (eos_id : Nat) (s : SeqGenState) (tok : Nat) : SeqGenState :=
  if s.is_done then s
  else
    let generated := s.generated ++ [tok]
    let current_end_str := decodeFn (sliceTail generated max_until_size)
    let contains_end_string := untilStrs.any fun e => decide (e <:+: current_end_str)
    { generated := generated
      is_done := contains_end_string || decide (tok = eos_id) }

/-! ### Byte tokenizer (lingua/tokenizer.py lines 49 to 61) -/

/-- The UTF-8 encoding of one character, as produced by the Python method
str.encode with its default utf-8 codec: one byte below 0x80, two bytes below
0x800, three below 0x10000 and four above. -/
def utf8EncodeChar (c : Char) : List Nat :=
  let v := c.toNat
  if v < 0x80 then [v]
  else if v < 0x800 then [0xC0 + v / 64, 0x80 + v % 64]
  else if v < 0x10000 then [0xE0 + v / 4096, 0x80 + v / 64 % 64, 0x80 + v % 64]
  else [0xF0 + v / 262144, 0x80 + v / 4096 % 64, 0x80 + v / 64 % 64, 0x80 + v % 64]

/-- Embeds ByteTokenizer.encode: optional bos id 256, the UTF-8 bytes of the
text, optional eos id 257. -/
def byteEncode (s : List Char) (add_bos add_eos : Bool) : List Nat :=
  (if add_bos then [256] else []) ++ (s.map utf8EncodeChar).flatten ++
    (if add_eos then [257] else [])

/-- The lowercase hexadecimal digit for a value below 16, used by the Python
backslashreplace error handler. -/
def hexDigit (n : Nat) : Char :=
  if n < 10 then Char.ofNat (48 + n) else Char.ofNat (87 + n)

/-- The replacement emitted by the backslashreplace error handler of the
Python utf-8 codec for one undecodable byte: a backslash, the letter x and
two hexadecimal digits. -/
def backslashReplace (b : Nat) : List Char :=
  [Char.ofNat 92, Char.ofNat 120, hexDigit (b / 16 % 16), hexDigit (b % 16)]

/-- Whether a byte is a UTF-8 continuation byte (0x80 to 0xBF). -/
def isCont (b : Nat) : Bool :=
  decide (0x80 ≤ b) && decide (b < 0xC0)

/-- The semantics of the Python call bytes.decode with the utf-8 codec and
the backslashreplace error handler, written with explicit fuel (one unit per
consumed leading byte).  Well-formed multibyte sequences are decoded to their
scalar value; a malformed leading byte is replaced and decoding resumes at
the next byte. -/
def utf8DecodeFuel : Nat → List Nat → List Char
  | 0, _ => []
  | _ + 1, [] => []
  | fuel + 1, b :: rest =>
    if b < 0x80 then Char.ofNat b :: utf8DecodeFuel fuel rest
    else if decide (0xC2 ≤ b) && decide (b < 0xE0) then
      match rest with
      | b2 :: rest2 =>
        if isCont b2 then
          Char.ofNat ((b - 0xC0) * 64 + (b2 - 0x80)) :: utf8DecodeFuel fuel rest2
        else backslashReplace b ++ utf8DecodeFuel fuel rest
      | [] => backslashReplace b ++ utf8DecodeFuel fuel []
    else if decide (0xE0 ≤ b) && decide (b < 0xF0) then
      match rest with
      | b2 :: b3 :: rest3 =>
        if isCont b2 && isCont b3 then
          Char.ofNat ((b - 0xE0) * 4096 + (b2 - 0x80) * 64 + (b3 - 0x80)) ::
            utf8DecodeFuel fuel rest3
        else backslashReplace b ++ utf8DecodeFuel fuel rest
      | _ => backslashReplace b ++ utf8DecodeFuel fuel rest
    else if decide (0xF0 ≤ b) && decide (b < 0xF5) then
      match rest with
      | b2 :: b3 :: b4 :: rest4 =>
        if isCont b2 && isCont b3 && isCont b4 then
          Char.ofNat ((b - 0xF0) * 262144 + (b2 - 0x80) * 4096 +
              (b3 - 0x80) * 64 + (b4 - 0x80)) :: utf8DecodeFuel fuel rest4
        else backslashReplace b ++ utf8DecodeFuel fuel rest
      | _ => backslashReplace b ++ utf8DecodeFuel fuel rest
    else backslashReplace b ++ utf8DecodeFuel fuel rest

/-- UTF-8 decoding with backslashreplace; the byte count bounds the number of
decoding steps. -/
def utf8Decode (l : List Nat) : List Char :=
  utf8DecodeFuel l.length l

/-- Embeds ByteTokenizer.decode: the tokens below 256 are kept as bytes and
decoded as UTF-8 with the backslashreplace error handler. -/
def byteDecode (tokens : List Nat) : List Char :=
  utf8Decode (tokens.filter (fun t => decide (t < 256)))

/-! ### Nucleus sampling (sample_top_p, generate.py lines 30 to 37) -/

/-- The descending order on probability-index pairs used by torch.sort with
descending=True: a precedes b when the probability of b is at most that of a. -/
def descRel (a b : ℚ × Nat) : Prop := b.1 ≤ a.1

instance : DecidableRel descRel := fun a b => inferInstanceAs (Decidable (b.1 ≤ a.1))

instance : IsTotal (ℚ × Nat) descRel := ⟨fun a b => le_total b.1 a.1⟩

instance : IsTrans (ℚ × Nat) descRel := ⟨fun _ _ _ hab hbc => le_trans hbc hab⟩

/-- Embeds torch.sort descending with returned indices: the probabilities are
paired with their original positions and sorted by decreasing probability. -/
def sortDescWithIdx (probs : List ℚ) : List (ℚ × Nat) :=
  List.insertionSort descRel (probs.enum.map fun p => (p.2, p.1))

/-- The sorted probability row probs_sort of sample_top_p. -/
def topPVals (probs : List ℚ) : List ℚ :=
  (sortDescWithIdx probs).map Prod.fst

/-- The original-position row probs_idx of sample_top_p. -/
def topPIdxs (probs : List ℚ) : List Nat :=
  (sortDescWithIdx probs).map Prod.snd

/-- Embeds the truncation of sample_top_p: with probs_sum the inclusive
cumulative sum, the mask probs_sum - probs_sort > p zeroes exactly the
entries whose strictly preceding cumulative mass exceeds p. -/
def topPTruncated (probs : List ℚ) (p : ℚ) : List ℚ :=
  let vals := topPVals probs
  (List.range vals.length).map fun i =>
    if p < (vals.take i).sum then 0 else vals.getD i 0

/-- Embeds the final gather of sample_top_p: the multinomial draw returns a
position j into the truncated sorted row (a position of positive truncated
mass), and the emitted token is the original index stored at j. -/
def sample_top_p_result (probs : List ℚ) (draw : Nat) : Nat :=
  (topPIdxs probs).getD draw 0

/-! ### Helper lemmas -/

lemma addToLast_zero : ∀ (l : List Int), addToLast l 0 = l
  | [] => rfl
  | [x] => by simp [addToLast]
  | x :: y :: xs => by
    rw [addToLast, addToLast_zero (y :: xs)]

lemma sum_addToLast : ∀ (l : List Int) (d : Int), l ≠ [] → (addToLast l d).sum = l.sum + d
  | [], _, h => absurd rfl h
  | [x], d, _ => by simp [addToLast]
  | x :: y :: xs, d, _ => by
    rw [addToLast, List.sum_cons, List.sum_cons,
      sum_addToLast (y :: xs) d (List.cons_ne_nil y xs), add_assoc]

lemma dropLast_addToLast : ∀ (l : List Int) (d : Int), (addToLast l d).dropLast = l.dropLast
  | [], _ => rfl
  | [x], _ => rfl
  | x :: y :: xs, d => by
    rw [addToLast]
    cases hxs : addToLast (y :: xs) d with
    | nil => cases xs <;> simp [addToLast] at hxs
    | cons a as =>
      rw [List.dropLast_cons₂, ← hxs, dropLast_addToLast (y :: xs) d]
      cases xs <;> simp [List.dropLast_cons₂]

/-! ### C1: cache layout planner -/

/-- C1 counterexample: the claim states the last padded length receives the
adjustment max(0, C - sum); with lengths [5], generation budget 2 and
capacity 3 the code instead adds 3 - 7 = -4, producing padded length 3 and
not 5 + 2 + max 0 (3 - 7) = 7. -/
theorem planner_padded_lengths_counterexample :
    plannedPaddedLengths [5] 2 (some 3) = [3] ∧
    (3 : Int) ≠ 5 + 2 + max 0 (3 - (5 + 2)) := by decide

/-- C1 (amended): per-sequence padded length is length + G; when a non-zero
capacity C is configured the last padded length is adjusted by C - sum of the
padded lengths, a quantity that may be negative, so the padded lengths always
sum to C exactly; without a configured capacity the padded lengths are
exactly length + G; start offsets are the prefix sums of the padded lengths;
and on lengths [3, 5] with G = 2 and no capacity the padded lengths are
[5, 7] with start offsets [0, 5]. -/
theorem planner_padded_lengths_spec (lengths : List Int) (G : Int) (c : Int)
    (hne : lengths ≠ []) (hc : c ≠ 0) :
    plannedPaddedLengths lengths G none = lengths.map (· + G) ∧
    (plannedPaddedLengths lengths G (some c)).sum = c ∧
    (plannedPaddedLengths lengths G (some c)).dropLast = (lengths.map (· + G)).dropLast ∧
    lengths_to_start_ids (plannedPaddedLengths lengths G none) =
      (List.range lengths.length).map (fun i => ((lengths.map (· + G)).take i).sum) ∧
    plannedPaddedLengths [3, 5] 2 none = [5, 7] ∧
    lengths_to_start_ids [5, 7] = [0, 5] := by
  have hmapne : lengths.map (· + G) ≠ [] := by
    simpa using hne
  have h1 : plannedPaddedLengths lengths G none = lengths.map (· + G) := by
    unfold plannedPaddedLengths
    simp [addToLast_zero]
  refine ⟨h1, ?_, ?_, ?_, by decide, by decide⟩
  · unfold plannedPaddedLengths
    simp only [hc, if_false]
    rw [sum_addToLast _ _ hmapne]
    ring
  · unfold plannedPaddedLengths
    simp only [hc, if_false]
    rw [dropLast_addToLast]
  · rw [h1]
    unfold lengths_to_start_ids
    simp

/-- Closed witness for planner_padded_lengths_spec at lengths [3, 5], G = 2
and capacity 20. -/
theorem planner_padded_lengths_spec_witness :
    plannedPaddedLengths [3, 5] 2 none = [3, 5].map (· + 2) ∧
    (plannedPaddedLengths [3, 5] 2 (some 20)).sum = 20 :=
  ⟨(planner_padded_lengths_spec [3, 5] 2 20 (by decide) (by decide)).1,
   (planner_padded_lengths_spec [3, 5] 2 20 (by decide) (by decide)).2.1⟩

/-! ### C3: cache state between sub-batches -/

/-- C3 counterexample: clear_cache on an existing cache with the nonzero key
buffer [5] leaves the buffer equal to [5], not zeroed. -/
theorem clear_cache_counterexample :
    (clear_cache (some { k_cache := [5], v_cache := [7], offset := Offset.scalar 0 })
        1 (Offset.scalar 3)).k_cache = [5] ∧
    ([5] : List Int) ≠ List.replicate 1 0 := by decide

/-- C3 (amended): before each sub-batch, clear_cache only repositions the
write offset (creating a fresh zero-filled cache when none exists yet); the
key and value buffer contents of an existing cache are kept, not zeroed, and
KVCache.reset, which does zero both buffers and clear the offset, is not
invoked by clear_cache. -/
theorem clear_cache_spec (c : KVCache) (max_tokens : Nat) (off : Offset) :
    (clear_cache (some c) max_tokens off).k_cache = c.k_cache ∧
    (clear_cache (some c) max_tokens off).v_cache = c.v_cache ∧
    (clear_cache (some c) max_tokens off).offset = off ∧
    clear_cache none max_tokens off =
      { k_cache := List.replicate max_tokens 0
        v_cache := List.replicate max_tokens 0
        offset := off } ∧
    (KVCache.reset c).k_cache = List.replicate c.k_cache.length 0 ∧
    (KVCache.reset c).v_cache = List.replicate c.v_cache.length 0 ∧
    (KVCache.reset c).offset = Offset.scalar 0 :=
  ⟨rfl, rfl, rfl, rfl, rfl, rfl, rfl⟩

/-! ### C4: simultaneous top-p and top-k -/

/-- C4 counterexample: a configuration with both top_p and top_k set is
accepted by the constructor without error, and the sampling dispatch silently
resolves the conflict by taking the top_p branch. -/
theorem sampling_conflict_counterexample :
    generatorInit
        { temperature := 1, top_p := some (9 / 10), top_k := some 5,
          max_gen_len := 2, max_tokens := 10, untilStrs := [], dtype := "bf16" } =
      .ok { temperature := 1, top_p := some (9 / 10), top_k := some 5,
            max_gen_len := 2, max_tokens := 10, untilStrs := [], max_until_size := 1 } ∧
    sampleMethod 1 (some (9 / 10)) (some 5) = .topP (9 / 10) := by
  refine ⟨rfl, ?_⟩
  norm_num [sampleMethod]

/-- C4 (amended): the constructor performs no validation of the sampling
fields, copying top_p and top_k verbatim for every dtype it knows, and
whenever temperature is positive and both filters are set, sample_tokens
takes the top_p branch and ignores top_k. -/
theorem sampling_conflict_spec (cfg : GeneratorArgs)
    (hdtype : cfg.dtype = "fp32" ∨ cfg.dtype = "bf16")
    (t p k : ℚ) (ht : 0 < t) :
    (∃ s, generatorInit cfg = .ok s ∧ s.top_p = cfg.top_p ∧ s.top_k = cfg.top_k) ∧
    sampleMethod t (some p) (some k) = .topP p := by
  constructor
  · have hok : generatorInit cfg =
        .ok { temperature := cfg.temperature, top_p := cfg.top_p, top_k := cfg.top_k,
              max_gen_len := cfg.max_gen_len, max_tokens := cfg.max_tokens,
              untilStrs := cfg.untilStrs,
              max_until_size :=
                if cfg.untilStrs.isEmpty then 1
                else (cfg.untilStrs.map List.length).foldl Nat.max 0 } := by
      unfold generatorInit
      rw [if_pos hdtype]
    exact ⟨_, hok, rfl, rfl⟩
  · unfold sampleMethod
    rw [if_pos ht]

/-- Closed witness for sampling_conflict_spec at a bf16 configuration with
top_p = 9/10 and top_k = 5 and temperature 1. -/
theorem sampling_conflict_spec_witness :
    (∃ s, generatorInit
        { temperature := 1, top_p := some (9 / 10), top_k := some 5,
          max_gen_len := 2, max_tokens := 10, untilStrs := [], dtype := "bf16" } = .ok s ∧
        s.top_p = some (9 / 10) ∧ s.top_k = some 5) ∧
    sampleMethod 1 (some (9 / 10)) (some 5) = .topP (9 / 10) :=
  sampling_conflict_spec _ (Or.inr rfl) 1 (9 / 10) 5 (by norm_num)

/-! ### C5: empty prompts and packing -/

/-- C5 counterexample: a batch containing the empty prompt is packed without
any error; the empty prompt contributes length 0 to the length vector handed
to the cache layout planner. -/
theorem pack_prompts_counterexample :
    pack_prompts [[], [1]] = some ([1], [0, 1]) ∧
    pack_prompts [[], [1]] ≠ none := by decide

/-- C5 (amended): pack_prompts applies no emptiness test to the individual
prompts: for every non-empty batch it succeeds, returning the concatenation
and the per-prompt lengths, and a batch containing an empty prompt yields a
length vector containing 0 that flows on to the cache layout planner. -/
theorem pack_prompts_spec (prompts : List (List Int)) (hne : prompts ≠ []) :
    pack_prompts prompts = some (prompts.flatten, prompts.map List.length) ∧
    ([] ∈ prompts → 0 ∈ prompts.map List.length) := by
  constructor
  · unfold pack_prompts
    rw [if_neg]
    simp [hne]
  · intro hmem
    exact List.mem_map.mpr ⟨[], hmem, rfl⟩

/-- Closed witness for pack_prompts_spec at the batch [[], [1]]. -/
theorem pack_prompts_spec_witness :
    pack_prompts [[], [1]] = some ([[], [1]].flatten, [[], [1]].map List.length) ∧
    (0 : Nat) ∈ [[], [1]].map (List.length (α := Int)) :=
  ⟨(pack_prompts_spec [[], [1]] (by decide)).1,
   (pack_prompts_spec [[], [1]] (by decide)).2 (by decide)⟩

/-! ### C6: batcher -/

lemma batchPromptsAux_flatten (M : Nat) (l cur : List (α × Nat)) (cnt : Nat) :
    (batchPromptsAux M l cur cnt).flatten = cur ++ l := by
  induction l generalizing cur cnt with
  | nil =>
    by_cases h : cur.isEmpty
    · rw [List.isEmpty_iff] at h
      simp [batchPromptsAux, h]
    · simp [batchPromptsAux, h]
  | cons x rest ih =>
    rw [batchPromptsAux]
    split
    · rw [ih]
      simp
    · by_cases h : cur.isEmpty
      · rw [List.isEmpty_iff] at h
        simp [h, ih]
      · simp [h, ih]

lemma batchPromptsAux_batches (M : Nat) (l : List (α × Nat)) :
    ∀ (cur : List (α × Nat)) (cnt : Nat), cnt = (cur.map Prod.snd).sum →
      ((cur.map Prod.snd).sum ≤ M ∨ ∃ x, cur = [x] ∧ M < x.2) →
      ∀ b ∈ batchPromptsAux M l cur cnt,
        (b.map Prod.snd).sum ≤ M ∨ ∃ x, b = [x] ∧ M < x.2 := by
  induction l with
  | nil =>
    intro cur cnt _ hcur b hb
    rw [batchPromptsAux] at hb
    split at hb
    · simp at hb
    · rw [List.mem_singleton] at hb
      exact hb ▸ hcur
  | cons x rest ih =>
    intro cur cnt hcnt hcur b hb
    rw [batchPromptsAux] at hb
    split at hb
    case isTrue hfit =>
      refine ih (cur ++ [x]) (cnt + x.2) (by simp [hcnt]) ?_ b hb
      left
      simp only [List.map_append, List.sum_append, List.map_cons, List.map_nil,
        List.sum_cons, List.sum_nil, add_zero]
      rw [← hcnt]
      exact hfit
    case isFalse hfit =>
      rw [List.mem_append] at hb
      rcases hb with hb | hb
      · split at hb
        · simp at hb
        · rw [List.mem_singleton] at hb
          exact hb ▸ hcur
      · refine ih [x] x.2 (by simp) ?_ b hb
        rcases le_or_lt x.2 M with hle | hgt
        · left
          simpa using hle
        · exact Or.inr ⟨x, rfl, hgt⟩

/-- C6 (confirmed): every prompt appears in exactly one sub-batch, in the
original relative order (the concatenation of the sub-batches is the input
list); every sub-batch respects the total reserved length bound except that
a single oversized prompt is placed alone in its own sub-batch; and reserved
lengths [3, 4, 5] with maximum 7 yield the sub-batches [[3, 4], [5]]. -/
theorem batcher_spec {α : Type} (M : Nat) (l : List (α × Nat)) :
    (batch_prompts M l).flatten = l ∧
    (∀ b ∈ batch_prompts M l, (b.map Prod.snd).sum ≤ M ∨ ∃ x, b = [x] ∧ M < x.2) ∧
    batch_prompts 7 [(0, 3), (1, 4), (2, 5)] = [[(0, 3), (1, 4)], [(2, 5)]] := by
  refine ⟨?_, ?_, by decide⟩
  · rw [batch_prompts, batchPromptsAux_flatten]
    rfl
  · exact batchPromptsAux_batches M l [] 0 rfl (Or.inl (by simp))

/-- Closed witness for batcher_spec at reserved lengths [3, 4, 5] with
maximum 7: the flattening equals the input and the first emitted sub-batch
satisfies the bound. -/
theorem batcher_spec_witness :
    (batch_prompts 7 [(0, 3), (1, 4), (2, 5)]).flatten = [(0, 3), (1, 4), (2, 5)] ∧
    (([(0, 3), (1, 4)].map Prod.snd).sum ≤ 7 ∨ ∃ x, [(0, 3), (1, 4)] = [x] ∧ 7 < x.2) :=
  ⟨(batcher_spec 7 [(0, 3), (1, 4), (2, 5)]).1,
   (batcher_spec 7 [(0, 3), (1, 4), (2, 5)]).2.1 [(0, 3), (1, 4)] (by decide)⟩

/-! ### C7: the finished flag freezes a sequence -/

/-- C7 (confirmed): once the finished flag of a sequence is set, every later
decode step leaves that sequence untouched, so no token is ever appended to
its generated list again; and for an unfinished sequence the step appends the
sampled token and sets the flag exactly when a configured stop string occurs
in the decoded tail of the most recent tokens or the token is the
end-of-sequence id. -/
theorem finished_flag_spec (decodeFn : List Nat → List Char)
    (untilStrs : List (List Char)) (mus eos : Nat) (s : SeqGenState)
    (toks : List Nat) (tok : Nat) :
    (s.is_done = true → toks.foldl (stepSeq decodeFn untilStrs mus eos) s = s) ∧
    (s.is_done = false →
      (stepSeq decodeFn untilStrs mus eos s tok).generated = s.generated ++ [tok] ∧
      (stepSeq decodeFn untilStrs mus eos s tok).is_done =
        ((untilStrs.any fun e =>
            decide (e <:+: decodeFn (sliceTail (s.generated ++ [tok]) mus))) ||
          decide (tok = eos))) := by
  constructor
  · intro hdone
    induction toks with
    | nil => rfl
    | cons t ts ih =>
      rw [List.foldl_cons]
      rw [stepSeq, if_pos hdone]
      exact ih
  · intro hlive
    rw [stepSeq, if_neg (by simp [hlive])]
    exact ⟨rfl, rfl⟩

/-- Closed witness for finished_flag_spec: a finished sequence survives two
further steps unchanged, and an unfinished sequence sampling the
end-of-sequence id 9 appends it and becomes finished. -/
theorem finished_flag_spec_witness :
    ([2, 3].foldl (stepSeq (fun _ => []) [] 1 9) (SeqGenState.mk [1] true) =
      SeqGenState.mk [1] true) ∧
    (stepSeq (fun _ => []) [] 1 9 (SeqGenState.mk [1] false) 9).generated = [1] ++ [9] ∧
    (stepSeq (fun _ => []) [] 1 9 (SeqGenState.mk [1] false) 9).is_done =
      ((([] : List (List Char)).any fun e =>
          decide (e <:+: (fun _ => ([] : List Char)) (sliceTail ([1] ++ [9]) 1))) ||
        decide (9 = 9)) :=
  ⟨(finished_flag_spec (fun _ => []) [] 1 9 (SeqGenState.mk [1] true) [2, 3] 0).1 rfl,
   (finished_flag_spec (fun _ => []) [] 1 9 (SeqGenState.mk [1] false) [] 9).2 rfl⟩

/-! ### C2: decode-step mask -/

lemma local_ids_from_fst_length (L : List Nat) :
    ∀ d, ((lengths_to_local_ids_from d L).1).length = L.sum := by
  induction L with
  | nil => intro d; rfl
  | cons n rest ih =>
    intro d
    simp [lengths_to_local_ids_from, ih (d + 1), List.sum_cons]

lemma local_ids_from_snd_length (L : List Nat) :
    ∀ d, ((lengths_to_local_ids_from d L).2).length = L.sum := by
  induction L with
  | nil => intro d; rfl
  | cons n rest ih =>
    intro d
    simp [lengths_to_local_ids_from, ih (d + 1), List.sum_cons]

lemma getD_map_range {β : Type} (f : Nat → β) (n i : Nat) (d : β) (h : i < n) :
    ((List.range n).map f).getD i d = f i := by
  rw [List.getD_eq_getElem?_getD, List.getElem?_map, List.getElem?_range h]
  rfl

/-- C2 (confirmed): the decode-step mask has one row per sequence and one
column per cache position (the padded id vectors cover the whole cache, of
size the sum of the padded lengths); entry (i, j) is true exactly when the
document id of sequence i equals the padded document id of position j and the
current local position of sequence i is at least the padded local position of
position j; and one decode step advances the current local position of every
sequence, finished or not, by exactly one. -/
theorem decode_step_mask_spec (cur_doc cur_tok : List Nat) (L : List Nat) :
    (lengths_to_local_ids L).1.length = L.sum ∧
    (lengths_to_local_ids L).2.length = L.sum ∧
    (decode_mask cur_doc cur_tok (lengths_to_local_ids L).1
      (lengths_to_local_ids L).2).length = cur_doc.length ∧
    (∀ row ∈ decode_mask cur_doc cur_tok (lengths_to_local_ids L).1
        (lengths_to_local_ids L).2, row.length = L.sum) ∧
    (∀ i j, i < cur_doc.length → j < L.sum →
      (((decode_mask cur_doc cur_tok (lengths_to_local_ids L).1
          (lengths_to_local_ids L).2).getD i []).getD j false = true ↔
        (cur_doc.getD i 0 = (lengths_to_local_ids L).1.getD j 0 ∧
          (lengths_to_local_ids L).2.getD j 0 ≤ cur_tok.getD i 0))) ∧
    (advanceTokIds cur_tok).length = cur_tok.length ∧
    (∀ i, i < cur_tok.length →
      (advanceTokIds cur_tok).getD i 0 = cur_tok.getD i 0 + 1) := by
  have h1 : (lengths_to_local_ids L).1.length = L.sum :=
    local_ids_from_fst_length L 0
  have h2 : (lengths_to_local_ids L).2.length = L.sum :=
    local_ids_from_snd_length L 0
  refine ⟨h1, h2, by simp [decode_mask], ?_, ?_, by simp [advanceTokIds], ?_⟩
  · intro row hrow
    rw [decode_mask, List.mem_map] at hrow
    obtain ⟨i, _, hrow⟩ := hrow
    rw [← hrow]
    simp [h1]
  · intro i j hi hj
    rw [decode_mask, getD_map_range _ _ _ _ hi, getD_map_range _ _ _ _ (h1 ▸ hj)]
    simp [Bool.and_eq_true, decide_eq_true_iff]
  · intro i hi
    rw [advanceTokIds, List.getD_eq_getElem?_getD, List.getElem?_map,
      List.getElem?_eq_getElem hi, List.getD_eq_getElem?_getD,
      List.getElem?_eq_getElem hi]
    rfl

/-- Closed witness for decode_step_mask_spec with two sequences of padded
lengths 3 and 3, document ids [0, 1] and current local positions [2, 5]:
position 0 of the cache belongs to document 0 at local position 0, so the
query of sequence 0 sees it. -/
theorem decode_step_mask_spec_witness :
    ((decode_mask [0, 1] [2, 5] (lengths_to_local_ids [3, 3]).1
        (lengths_to_local_ids [3, 3]).2).getD 0 []).getD 0 false = true ↔
      (([0, 1].getD 0 0 = (lengths_to_local_ids [3, 3]).1.getD 0 0) ∧
        ((lengths_to_local_ids [3, 3]).2.getD 0 0 ≤ [2, 5].getD 0 0)) :=
  (decode_step_mask_spec [0, 1] [2, 5] [3, 3]).2.2.2.2.1 0 0 (by decide) (by decide)

/-! ### C9: index-copy writes in the KV cache -/

lemma indexCopy_nil_vals (cache : List Int) (is : List Nat) : indexCopy cache is [] = cache := by
  cases is <;> rfl

lemma indexCopy_cons (cache : List Int) (i : Nat) (v : Int) (is : List Nat) (vs : List Int) :
    indexCopy cache (i :: is) (v :: vs) = indexCopy (cache.set i v) is vs := rfl

lemma indexCopy_length (is : List Nat) :
    ∀ (cache : List Int) (vs : List Int), (indexCopy cache is vs).length = cache.length := by
  induction is with
  | nil => intro cache vs; rfl
  | cons i is ih =>
    intro cache vs
    cases vs with
    | nil => rw [indexCopy_nil_vals]
    | cons v vs => rw [indexCopy_cons, ih, List.length_set]

lemma indexCopy_getElem?_not_mem (is : List Nat) :
    ∀ (cache : List Int) (vs : List Int) (p : Nat), p ∉ is →
      (indexCopy cache is vs)[p]? = cache[p]? := by
  induction is with
  | nil => intro cache vs p _; rfl
  | cons i is ih =>
    intro cache vs p hp
    rw [List.mem_cons, not_or] at hp
    cases vs with
    | nil => rw [indexCopy_nil_vals]
    | cons v vs =>
      rw [indexCopy_cons, ih _ _ _ hp.2, List.getElem?_set_ne (Ne.symm hp.1)]

lemma indexCopy_getElem?_hit (is : List Nat) :
    ∀ (cache : List Int) (vs : List Int) (j pos : Nat) (v : Int), is.Nodup →
      is[j]? = some pos → vs[j]? = some v → pos < cache.length →
      (indexCopy cache is vs)[pos]? = some v := by
  induction is with
  | nil =>
    intro cache vs j pos v _ hj _ _
    simp at hj
  | cons i is ih =>
    intro cache vs j pos v hnd hj hv hpos
    rw [List.nodup_cons] at hnd
    cases vs with
    | nil => simp at hv
    | cons w vs =>
      cases j with
      | zero =>
        simp only [List.getElem?_cons_zero, Option.some.injEq] at hj hv
        subst hj
        subst hv
        rw [indexCopy_cons, indexCopy_getElem?_not_mem is _ _ _ hnd.1,
          List.getElem?_set_self hpos]
      | succ j =>
        simp only [List.getElem?_cons_succ] at hj hv
        rw [indexCopy_cons]
        exact ih (cache.set i w) vs j pos v hnd.2 hj hv (by rw [List.length_set]; exact hpos)

/-- C9 (confirmed): update writes k_val and v_val at exactly the cache
positions offset + tok_idx (the broadcast sum): the returned tensors are the
updated key and value buffers, position offset + tok_idx[j] holds the new
values, and every position outside offset + tok_idx keeps its previous
contents; the offset and the buffer sizes are unchanged.  The index
hypotheses reflect torch index_copy_: one value per index, distinct indices,
all in range. -/
theorem kv_cache_update_spec (c : KVCache) (k_val v_val : List Int) (tok_idx : List Nat)
    (hk : (c.offset.add tok_idx).length = k_val.length)
    (hv : (c.offset.add tok_idx).length = v_val.length)
    (hnd : (c.offset.add tok_idx).Nodup)
    (hbk : ∀ i ∈ c.offset.add tok_idx, i < c.k_cache.length)
    (hbv : ∀ i ∈ c.offset.add tok_idx, i < c.v_cache.length) :
    (c.update k_val v_val tok_idx).2.1 = (c.update k_val v_val tok_idx).1.k_cache ∧
    (c.update k_val v_val tok_idx).2.2 = (c.update k_val v_val tok_idx).1.v_cache ∧
    (c.update k_val v_val tok_idx).1.offset = c.offset ∧
    (c.update k_val v_val tok_idx).1.k_cache.length = c.k_cache.length ∧
    (c.update k_val v_val tok_idx).1.v_cache.length = c.v_cache.length ∧
    (∀ p, p ∉ c.offset.add tok_idx →
      (c.update k_val v_val tok_idx).1.k_cache[p]? = c.k_cache[p]? ∧
      (c.update k_val v_val tok_idx).1.v_cache[p]? = c.v_cache[p]?) ∧
    (∀ (j pos : Nat), (c.offset.add tok_idx)[j]? = some pos →
      (c.update k_val v_val tok_idx).1.k_cache[pos]? = k_val[j]? ∧
      (c.update k_val v_val tok_idx).1.v_cache[pos]? = v_val[j]?) := by
  refine ⟨rfl, rfl, rfl, indexCopy_length _ _ _, indexCopy_length _ _ _, ?_, ?_⟩
  · intro p hp
    exact ⟨indexCopy_getElem?_not_mem _ _ _ _ hp, indexCopy_getElem?_not_mem _ _ _ _ hp⟩
  · intro j pos hj
    have hjlt : j < (c.offset.add tok_idx).length := by
      rcases List.getElem?_eq_some.mp hj with ⟨h, _⟩
      exact h
    have hmem : pos ∈ c.offset.add tok_idx := by
      rcases List.getElem?_eq_some.mp hj with ⟨h, hval⟩
      exact hval ▸ List.getElem_mem h
    have hkj : k_val[j]? = some k_val[j] := List.getElem?_eq_getElem (hk ▸ hjlt)
    have hvj : v_val[j]? = some v_val[j] := List.getElem?_eq_getElem (hv ▸ hjlt)
    refine ⟨?_, ?_⟩
    · rw [hkj]
      exact indexCopy_getElem?_hit _ _ _ _ _ _ hnd hj hkj (hbk pos hmem)
    · rw [hvj]
      exact indexCopy_getElem?_hit _ _ _ _ _ _ hnd hj hvj (hbv pos hmem)

/-- Closed witness for kv_cache_update_spec: a four-slot cache with
per-sequence offsets [0, 2] and local token indices [1, 1] writes positions
1 and 3 and keeps position 0. -/
theorem kv_cache_update_spec_witness :
    ((KVCache.mk [10, 11, 12, 13] [20, 21, 22, 23] (Offset.vector [0, 2])).update
        [100, 101] [200, 201] [1, 1]).1.k_cache[0]? =
      ([10, 11, 12, 13] : List Int)[0]? ∧
    ((KVCache.mk [10, 11, 12, 13] [20, 21, 22, 23] (Offset.vector [0, 2])).update
        [100, 101] [200, 201] [1, 1]).1.k_cache[1]? = ([100, 101] : List Int)[0]? :=
  ⟨((kv_cache_update_spec (KVCache.mk [10, 11, 12, 13] [20, 21, 22, 23]
      (Offset.vector [0, 2])) [100, 101] [200, 201] [1, 1] (by decide) (by decide)
      (by decide) (by decide) (by decide)).2.2.2.2.2.1 0 (by decide)).1,
   ((kv_cache_update_spec (KVCache.mk [10, 11, 12, 13] [20, 21, 22, 23]
      (Offset.vector [0, 2])) [100, 101] [200, 201] [1, 1] (by decide) (by decide)
      (by decide) (by decide) (by decide)).2.2.2.2.2.2 0 1 (by decide)).1⟩

/-! ### C8: byte tokenizer round trip on printable ASCII -/

lemma utf8EncodeChar_ascii (ch : Char) (h : ch.toNat < 128) :
    utf8EncodeChar ch = [ch.toNat] := by
  rw [utf8EncodeChar]
  simp [h]

lemma encode_ascii_flatten (s : List Char) (h : ∀ ch ∈ s, ch.toNat < 128) :
    (s.map utf8EncodeChar).flatten = s.map Char.toNat := by
  induction s with
  | nil => rfl
  | cons ch rest ih =>
    rw [List.map_cons, List.flatten_cons, List.map_cons,
      utf8EncodeChar_ascii ch (h ch (List.mem_cons_self ch rest)),
      ih (fun x hx => h x (List.mem_cons_of_mem ch hx))]
    rfl

lemma utf8DecodeFuel_ascii :
    ∀ (fuel : Nat) (l : List Nat), (∀ b ∈ l, b < 128) → l.length ≤ fuel →
      utf8DecodeFuel fuel l = l.map Char.ofNat := by
  intro fuel
  induction fuel with
  | zero =>
    intro l _ hlen
    rw [Nat.le_zero, List.length_eq_zero] at hlen
    subst hlen
    rfl
  | succ fuel ih =>
    intro l hb hlen
    cases l with
    | nil => rfl
    | cons b rest =>
      rw [utf8DecodeFuel.eq_def]
      simp only []
      rw [if_pos (hb b (List.mem_cons_self b rest)),
        ih rest (fun x hx => hb x (List.mem_cons_of_mem b hx))
          (Nat.le_of_succ_le_succ hlen)]
      rfl

/-- C8 (confirmed): for every string of printable ASCII characters, decoding
the byte-level encoding with add_bos = false and add_eos = false returns the
original string. -/
theorem byte_tokenizer_roundtrip (s : List Char)
    (h : ∀ ch ∈ s, 32 ≤ ch.toNat ∧ ch.toNat ≤ 126) :
    byteDecode (byteEncode s false false) = s := by
  have hascii : ∀ ch ∈ s, ch.toNat < 128 := fun ch hch =>
    Nat.lt_of_le_of_lt (h ch hch).2 (by norm_num)
  have henc : byteEncode s false false = s.map Char.toNat := by
    rw [byteEncode]
    simp only [if_neg Bool.false_ne_true, List.nil_append, List.append_nil]
    exact encode_ascii_flatten s hascii
  have hfilter : (s.map Char.toNat).filter (fun t => decide (t < 256)) = s.map Char.toNat := by
    rw [List.filter_eq_self]
    intro b hbmem
    rcases List.mem_map.mp hbmem with ⟨ch, hch, hval⟩
    have : b < 128 := hval ▸ hascii ch hch
    simp only [decide_eq_true_iff]
    omega
  rw [henc, byteDecode, hfilter, utf8Decode,
    utf8DecodeFuel_ascii _ _ (by
      intro b hbmem
      rcases List.mem_map.mp hbmem with ⟨ch, hch, hval⟩
      exact hval ▸ hascii ch hch) (le_refl _),
    List.map_map]
  have : ∀ ch ∈ s, (Char.ofNat ∘ Char.toNat) ch = id ch := by
    intro ch _
    simp [Char.ofNat_toNat]
  rw [List.map_congr_left this, List.map_id]

/-- Closed witness for byte_tokenizer_roundtrip on the two printable ASCII
characters H and i. -/
theorem byte_tokenizer_roundtrip_witness :
    byteDecode (byteEncode [Char.ofNat 72, Char.ofNat 105] false false) =
      [Char.ofNat 72, Char.ofNat 105] :=
  byte_tokenizer_roundtrip [Char.ofNat 72, Char.ofNat 105] (by decide)

/-! ### C10: nucleus sampling safety -/

lemma topPVals_perm (probs : List ℚ) : (topPVals probs).Perm probs := by
  unfold topPVals sortDescWithIdx
  have h :=
    (List.perm_insertionSort descRel (probs.enum.map fun p => (p.2, p.1))).map Prod.fst
  rw [List.map_map] at h
  have he : probs.enum.map (Prod.fst ∘ fun p : Nat × ℚ => (p.2, p.1)) = probs := by
    have hf : (Prod.fst ∘ fun p : Nat × ℚ => (p.2, p.1)) = Prod.snd := rfl
    rw [hf, List.enum_map_snd]
  rwa [he] at h

lemma head_ge_mem (probs : List ℚ) (x : ℚ) (hx : x ∈ probs) :
    x ≤ (topPVals probs).getD 0 0 := by
  have hxv : x ∈ topPVals probs := (topPVals_perm probs).mem_iff.mpr hx
  have hs : List.Sorted descRel (sortDescWithIdx probs) :=
    List.sorted_insertionSort descRel _
  rw [topPVals] at hxv ⊢
  cases hq : sortDescWithIdx probs with
  | nil =>
    rw [hq] at hxv
    simp at hxv
  | cons q qs =>
    rw [hq] at hxv hs
    rw [List.map_cons] at hxv ⊢
    rw [List.sorted_cons] at hs
    rw [List.getD_cons_zero]
    rcases List.mem_cons.mp hxv with h | h
    · exact h.le
    · rcases List.mem_map.mp h with ⟨pr, hpr, hprx⟩
      exact hprx ▸ hs.1 pr hpr

lemma topPVals_nonneg (probs : List ℚ) (hnn : ∀ x ∈ probs, 0 ≤ x) :
    ∀ x ∈ topPVals probs, 0 ≤ x :=
  fun x hx => hnn x ((topPVals_perm probs).mem_iff.mp hx)

lemma topPVals_head_pos (probs : List ℚ) (hnn : ∀ x ∈ probs, 0 ≤ x)
    (hsum : probs.sum = 1) : 0 < (topPVals probs).getD 0 0 := by
  by_contra hle
  push_neg at hle
  have hz : ∀ x ∈ probs, x = 0 := fun x hx =>
    le_antisymm (le_trans (head_ge_mem probs x hx) hle) (hnn x hx)
  have : probs.sum = 0 := List.sum_eq_zero hz
  rw [hsum] at this
  norm_num at this

lemma topPTruncated_getD (probs : List ℚ) (p : ℚ) (i : Nat)
    (h : i < (topPVals probs).length) :
    (topPTruncated probs p).getD i 0 =
      if p < ((topPVals probs).take i).sum then 0 else (topPVals probs).getD i 0 := by
  rw [topPTruncated]
  exact getD_map_range _ _ _ _ h

lemma topPTruncated_length (probs : List ℚ) (p : ℚ) :
    (topPTruncated probs p).length = (topPVals probs).length := by
  rw [topPTruncated]
  simp

lemma topPTruncated_head (probs : List ℚ) (p : ℚ) (hp : 0 ≤ p) :
    (topPTruncated probs p).getD 0 0 = (topPVals probs).getD 0 0 := by
  cases hn : (topPVals probs).length with
  | zero =>
    rw [List.length_eq_zero] at hn
    rw [topPTruncated, hn]
    rfl
  | succ n =>
    rw [topPTruncated_getD probs p 0 (by omega), List.take_zero, List.sum_nil,
      if_neg (not_lt.mpr hp)]

lemma topPTruncated_nonneg (probs : List ℚ) (p : ℚ) (hnn : ∀ x ∈ probs, 0 ≤ x) :
    ∀ x ∈ topPTruncated probs p, 0 ≤ x := by
  intro x hx
  simp only [topPTruncated, List.mem_map, List.mem_range] at hx
  obtain ⟨i, hi, hx⟩ := hx
  rw [← hx]
  split
  · exact le_refl 0
  · rw [List.getD_eq_getElem?_getD, List.getElem?_eq_getElem hi]
    exact topPVals_nonneg probs hnn _ (List.getElem_mem hi)

lemma sum_ge_getD_zero (l : List ℚ) (h : ∀ x ∈ l, 0 ≤ x) : l.getD 0 0 ≤ l.sum := by
  cases l with
  | nil => simp
  | cons a t =>
    rw [List.getD_cons_zero, List.sum_cons]
    have ht : 0 ≤ t.sum :=
      List.sum_nonneg fun x hx => h x (List.mem_cons_of_mem a hx)
    linarith

/-- C10 (confirmed): for a probability row with non-negative entries summing
to 1 and any p at least 0, the truncation of sample_top_p never zeroes the
first (largest) entry of the descending sort, since the cumulative mass
strictly preceding it is 0, which is never greater than p; hence the
truncated row has positive total mass, so the multinomial draw over it is
well-defined; and any drawable position (one of positive truncated mass)
kept its sorted probability un-zeroed, the emitted token being the original
index stored at that position. -/
theorem sample_top_p_safe (probs : List ℚ) (p : ℚ)
    (hnn : ∀ x ∈ probs, 0 ≤ x) (hsum : probs.sum = 1) (hp : 0 ≤ p) :
    (topPTruncated probs p).getD 0 0 = (topPVals probs).getD 0 0 ∧
    (∀ x ∈ probs, x ≤ (topPVals probs).getD 0 0) ∧
    0 < (topPTruncated probs p).sum ∧
    (∀ j : Nat, 0 < (topPTruncated probs p).getD j 0 →
      (topPTruncated probs p).getD j 0 = (topPVals probs).getD j 0 ∧
      sample_top_p_result probs j = (topPIdxs probs).getD j 0) := by
  refine ⟨topPTruncated_head probs p hp, fun x hx => head_ge_mem probs x hx, ?_, ?_⟩
  · have hhead : 0 < (topPVals probs).getD 0 0 := topPVals_head_pos probs hnn hsum
    have hge := sum_ge_getD_zero (topPTruncated probs p) (topPTruncated_nonneg probs p hnn)
    rw [topPTruncated_head probs p hp] at hge
    linarith
  · intro j hj
    refine ⟨?_, rfl⟩
    by_cases hjlen : j < (topPVals probs).length
    · rw [topPTruncated_getD probs p j hjlen] at hj ⊢
      split at hj
      · exact absurd hj (lt_irrefl 0)
      · rename_i hcond
        rw [if_neg hcond]
    · have hnone : (topPTruncated probs p).getD j 0 = 0 := by
        rw [List.getD_eq_getElem?_getD, List.getElem?_eq_none]
        · rfl
        · rw [topPTruncated_length]
          omega
      rw [hnone] at hj
      exact absurd hj (lt_irrefl 0)

/-- Closed witness for sample_top_p_safe on the distribution [1/2, 1/2] with
p = 1/2. -/
theorem sample_top_p_safe_witness :
    (topPTruncated [1 / 2, 1 / 2] (1 / 2)).getD 0 0 =
      (topPVals [1 / 2, 1 / 2]).getD 0 0 ∧
    0 < (topPTruncated [1 / 2, 1 / 2] (1 / 2)).sum :=
  ⟨(sample_top_p_safe [1 / 2, 1 / 2] (1 / 2)
      (by intro x hx; rcases List.mem_cons.mp hx with h | h
          · rw [h]; norm_num
          · rw [List.mem_singleton] at h; rw [h]; norm_num)
      (by norm_num) (by norm_num)).1,
   (sample_top_p_safe [1 / 2, 1 / 2] (1 / 2)
      (by intro x hx; rcases List.mem_cons.mp hx with h | h
          · rw [h]; norm_num
          · rw [List.mem_singleton] at h; rw [h]; norm_num)
      (by norm_num) (by norm_num)).2.2.1⟩

end Lingua
